import Mathlib

/-!
Verification development for the ditherWalls image-processing pipeline.

The TypeScript sources are shallowly embedded as follows:
* JS numbers occurring in pixel arithmetic are modelled as rationals (ℚ);
  the tone-adjustment stage, whose contrast factor is `Math.tan`, is modelled
  over the reals (ℝ).
* `Uint8ClampedArray` buffers are lists of naturals; an out-of-range JS typed
  array store is modelled by the explicit clamp/round the code performs.
* In-place loops over buffers become folds with functional `List.set` updates.
* Fallible code returns `Except`/`Option`; a thrown JS exception is `none`
  (respectively `.error`).
-/

/-- RGBA pixel buffer (the embedding of the DOM `ImageData`): `data` is the
flat byte sequence, row-major, four bytes per pixel. -/
structure ImageData where
  width : ℕ
  height : ℕ
  data : List ℕ
deriving DecidableEq

/-- A byte triple, the result type of a quantizer (`RGBColor` in the source). -/
abbrev RGBByte := ℕ × ℕ × ℕ

/-- Source `QuantizeFn = (r, g, b) => RGBColor`: channel inputs are JS numbers
(ℚ here), the output is a byte triple. -/
abbrev QuantizeFn := ℚ → ℚ → ℚ → RGBByte

/-- JS `Math.round`: round half toward positive infinity. -/
def jsRound (v : ℚ) : ℤ := ⌊v + 1 / 2⌋

/-- Source `clampToByte` (quantization module): clamp to `[0, 255]` and round.
The JS `Number.isNaN` guard has no ℚ counterpart and is dropped. -/
def clampToByte (v : ℚ) : ℕ :=
  if v ≤ 0 then 0 else if 255 ≤ v then 255 else (jsRound v).toNat

/-- Source `clampFloatToByteRange` (dithering modules): clamp to `[0, 255]`
without rounding. -/
def clampQ (v : ℚ) : ℚ :=
  if v ≤ 0 then 0 else if 255 ≤ v then 255 else v

/-- Quantization mode of the quantizer options. -/
inductive QuantizationMode where
  | grayscale
  | perChannel
deriving DecidableEq

/-- Source `QuantizerOptions`. -/
structure QuantizerOptions where
  palette : Option (List (ℚ × ℚ × ℚ))
  levels : ℚ
  mode : QuantizationMode

/-- The once-at-construction clamp of palette entries (`normalisedPalette`). -/
def normalisePalette (pal : List (ℚ × ℚ × ℚ)) : List RGBByte :=
  pal.map fun c => (clampToByte c.1, clampToByte c.2.1, clampToByte c.2.2)

/-- Squared Euclidean RGB distance used by the palette search. -/
def dist2 (r g b : ℚ) (cand : RGBByte) : ℚ :=
  (r - cand.1) * (r - cand.1) + (g - cand.2.1) * (g - cand.2.1) +
    (b - cand.2.2) * (b - cand.2.2)

/-- One iteration of the palette search loop: the state is the current
`nearest` candidate and `closestDistance` (`none` models the initial
`Number.POSITIVE_INFINITY`); an entry replaces the state only on a strictly
smaller distance. -/
def nearestStep (r g b : ℚ) (st : RGBByte × Option ℚ) (cand : RGBByte) :
    RGBByte × Option ℚ :=
  let d := dist2 r g b cand
  match st.2 with
  | none => (cand, some d)
  | some best => if d < best then (cand, some d) else st

/-- The palette-mode nearest-neighbour search of `createQuantizer`: start from
`normalisedPalette[0]` with infinite best distance and scan every entry. -/
def paletteNearest (np : List RGBByte) (r g b : ℚ) : RGBByte :=
  (np.foldl (nearestStep r g b) (np.headD (0, 0, 0), none)).1

/-- Level-mode quantizer of `createQuantizer`: `levels` is rounded and bounded
to `[2, 256]`; the step degenerates to 255 when the divisor is non-positive. -/
def levelQuantizer (levels : ℚ) (mode : QuantizationMode) : QuantizeFn :=
  let boundedLevels : ℤ := max 2 (min 256 (jsRound levels))
  let divisor : ℤ := boundedLevels - 1
  let step : ℚ := if divisor ≤ 0 then 255 else 255 / (divisor : ℚ)
  match mode with
  | .perChannel => fun r g b =>
      (clampToByte ((jsRound (r / step) : ℚ) * step),
       clampToByte ((jsRound (g / step) : ℚ) * step),
       clampToByte ((jsRound (b / step) : ℚ) * step))
  | .grayscale => fun r g b =>
      let luminance := 0.2126 * r + 0.7152 * g + 0.0722 * b
      let quantized := clampToByte ((jsRound (luminance / step) : ℚ) * step)
      (quantized, quantized, quantized)

/-- Source `createQuantizer`: the palette branch is taken exactly when a
non-empty palette is supplied. -/
def createQuantizer (opts : QuantizerOptions) : QuantizeFn :=
  match opts.palette with
  | some pal =>
      if 0 < pal.length then fun r g b => paletteNearest (normalisePalette pal) r g b
      else levelQuantizer opts.levels opts.mode
  | none => levelQuantizer opts.levels opts.mode

/-- Common shape of the stride-4 in-place loops (`quantizeImageData` and the
tone-adjustment loop): rewrite the R, G, B bytes of each complete RGBA chunk,
leave the alpha byte and any trailing partial chunk unchanged. -/
def chunk4Map (f : ℕ → ℕ → ℕ → RGBByte) : List ℕ → List ℕ
  | r :: g :: b :: a :: rest =>
      (f r g b).1 :: (f r g b).2.1 :: (f r g b).2.2 :: a :: chunk4Map f rest
  | l => l

/-- Source `quantizeImageData`: apply the quantizer to every pixel's RGB
bytes in place. -/
def quantizeImageData (img : ImageData) (q : QuantizeFn) : ImageData :=
  { img with data := chunk4Map (fun r g b => q r g b) img.data }

/-- The raster-scan pixel order of both dithering loops:
`y` from 0 to height-1 (outer), `x` from 0 to width-1 (inner). -/
def loopPixels (w h : ℕ) : List (ℕ × ℕ) :=
  (List.range h).flatMap fun y => (List.range w).map fun x => (y, x)

/-- The Floyd–Steinberg error diffusion matrix
`{(+1,0):7/16, (-1,+1):3/16, (0,+1):5/16, (+1,+1):1/16}`. -/
def diffusionMatrix : List (ℤ × ℤ × ℚ) :=
  [(1, 0, 7 / 16), (-1, 1, 3 / 16), (0, 1, 5 / 16), (1, 1, 1 / 16)]

/-- State of the Floyd–Steinberg loop: the output byte buffer (`data`) and the
`Float32Array` error accumulator (`diffusedPixels`). -/
structure FSState where
  data : List ℕ
  diffused : List ℚ

/-- Diffuse one weighted error term to one neighbour, skipping neighbours
outside the surface and clamping each accumulator after the addition. -/
def fsDiffuseOne (w h : ℕ) (x y : ℕ) (eR eG eB : ℚ) (diffused : List ℚ)
    (off : ℤ × ℤ × ℚ) : List ℚ :=
  let tx : ℤ := (x : ℤ) + off.1
  let ty : ℤ := (y : ℤ) + off.2.1
  if tx < 0 ∨ (w : ℤ) ≤ tx ∨ ty < 0 ∨ (h : ℤ) ≤ ty then diffused
  else
    let ti := (ty.toNat * w + tx.toNat) * 4
    let d1 := diffused.set ti (clampQ (diffused.getD ti 0 + eR * off.2.2))
    let d2 := d1.set (ti + 1) (clampQ (d1.getD (ti + 1) 0 + eG * off.2.2))
    d2.set (ti + 2) (clampQ (d2.getD (ti + 2) 0 + eB * off.2.2))

/-- One pixel of the Floyd–Steinberg raster scan: quantize the already
error-adjusted sample, write it to the output and the accumulator, then (for
non-zero intensity) diffuse the scaled quantization error. -/
def fsStep (w h : ℕ) (q : QuantizeFn) (si : ℚ) (s : FSState) (yx : ℕ × ℕ) :
    FSState :=
  let y := yx.1
  let x := yx.2
  let index := (y * w + x) * 4
  let oR := s.diffused.getD index 0
  let oG := s.diffused.getD (index + 1) 0
  let oB := s.diffused.getD (index + 2) 0
  let qc := q oR oG oB
  let data1 := ((s.data.set index qc.1).set (index + 1) qc.2.1).set (index + 2) qc.2.2
  let diff1 := ((s.diffused.set index (qc.1 : ℚ)).set (index + 1) (qc.2.1 : ℚ)).set
    (index + 2) (qc.2.2 : ℚ)
  if si = 0 then ⟨data1, diff1⟩
  else
    let eR := (oR - qc.1) * si
    let eG := (oG - qc.2.1) * si
    let eB := (oB - qc.2.2) * si
    ⟨data1, diffusionMatrix.foldl (fsDiffuseOne w h x y eR eG eB) diff1⟩

/-- Source `floydSteinbergDither.apply`: the accumulator starts as a copy of
the input bytes and the intensity is clamped to `[0, 1]`. -/
def floydSteinbergApply (img : ImageData) (intensity : ℚ) (q : QuantizeFn) :
    ImageData :=
  let si := max 0 (min 1 intensity)
  let final := (loopPixels img.width img.height).foldl
    (fsStep img.width img.height q si) ⟨img.data, img.data.map (fun n : ℕ => (n : ℚ))⟩
  { img with data := final.data }

/-- The 64-entry `BAYER_8X8` threshold matrix, row-major. -/
def BAYER_8X8 : List ℕ :=
  [0, 48, 12, 60, 3, 51, 15, 63,
   32, 16, 44, 28, 35, 19, 47, 31,
   8, 56, 4, 52, 11, 59, 7, 55,
   40, 24, 36, 20, 43, 27, 39, 23,
   2, 50, 14, 62, 1, 49, 13, 61,
   34, 18, 46, 30, 33, 17, 45, 29,
   10, 58, 6, 54, 9, 57, 5, 53,
   42, 26, 38, 22, 41, 25, 37, 21]

/-- One pixel of the ordered Bayer 8×8 scan: look up the matrix cell at
`(y mod 8, x mod 8)`, normalize it to `(cell + 0.5)/64 − 0.5`, scale by the
clamped intensity times 255, add the offset to the three clamped channels and
quantize. -/
def bayerStep (w : ℕ) (si : ℚ) (q : QuantizeFn) (data : List ℕ) (yx : ℕ × ℕ) :
    List ℕ :=
  let y := yx.1
  let x := yx.2
  let index := (y * w + x) * 4
  let threshold := ((BAYER_8X8.getD ((y % 8) * 8 + x % 8) 0 : ℚ) + 1 / 2) / 64 - 1 / 2
  let offset := threshold * (si * 255)
  let aR := clampQ ((data.getD index 0 : ℚ) + offset)
  let aG := clampQ ((data.getD (index + 1) 0 : ℚ) + offset)
  let aB := clampQ ((data.getD (index + 2) 0 : ℚ) + offset)
  let qc := q aR aG aB
  ((data.set index qc.1).set (index + 1) qc.2.1).set (index + 2) qc.2.2

/-- Source `orderedBayer8x8Dither.apply`. -/
def orderedBayerApply (img : ImageData) (intensity : ℚ) (q : QuantizeFn) :
    ImageData :=
  let si := max 0 (min 1 intensity)
  { img with data :=
      (loopPixels img.width img.height).foldl (bayerStep img.width si q) img.data }

/-- Source `ApplyDitheringConfig`: the algorithm key is kept as a string to
model the defensive fallback for unknown keys. -/
structure DitherConfig where
  algorithm : String
  intensity : ℚ
  palette : Option (List (ℚ × ℚ × ℚ))
  levels : ℚ
  mode : QuantizationMode

/-- Source `applyDithering`: build the quantizer from the config, then
dispatch on the algorithm key; `none` and unknown keys use the direct
quantize path. -/
def applyDithering (img : ImageData) (cfg : DitherConfig) : ImageData :=
  let q := createQuantizer ⟨cfg.palette, cfg.levels, cfg.mode⟩
  if cfg.algorithm = "none" then quantizeImageData img q
  else if cfg.algorithm = "floyd-steinberg" then floydSteinbergApply img cfg.intensity q
  else if cfg.algorithm = "ordered-bayer-8x8" then orderedBayerApply img cfg.intensity q
  else quantizeImageData img q

/-- Source `ProcessingSettings` (worker profile): brightness and contrast are
JS numbers, modelled as ℚ so that the worker's zero guards stay decidable;
only the contrast-factor computation moves to ℝ. -/
structure ProcessingSettings where
  algorithm : String
  colorDepth : ℕ
  ditheringIntensity : ℚ
  brightness : ℚ
  contrast : ℚ
  resolutionPreset : String
  aspectLock : Bool
  palette : Option (List (ℚ × ℚ × ℚ))

/-- Source contrast factor `Math.tan(((contrast + 1) * Math.PI) / 4)`,
idealized over the reals. -/
noncomputable def contrastFactor (contrast : ℚ) : ℝ :=
  Real.tan (((contrast : ℝ) + 1) * Real.pi / 4)

/-- Source `clamp` helper of the tone stage: `Math.max(0, Math.min(255, v))`. -/
def clampReal (x : ℝ) : ℝ := max 0 (min 255 x)

/-- Round half to even, the store conversion performed by assignment into a
`Uint8ClampedArray`. -/
noncomputable def halfEvenRound (x : ℝ) : ℤ :=
  if x - ⌊x⌋ < 1 / 2 then ⌊x⌋
  else if 1 / 2 < x - ⌊x⌋ then ⌊x⌋ + 1
  else if Even ⌊x⌋ then ⌊x⌋ else ⌊x⌋ + 1

/-- One channel of the tone loop: `clamp(factor * (v - 128) + 128 + brightness)`
followed by the clamped-array store. -/
noncomputable def toneByte (factor : ℝ) (bright : ℚ) (v : ℕ) : ℕ :=
  (halfEvenRound (clampReal (factor * ((v : ℝ) - 128) + 128 + (bright : ℝ)))).toNat

/-- The body of the tone-adjustment loop over the RGBA byte stream. -/
noncomputable def adjustRGBA (factor : ℝ) (bright : ℚ) : List ℕ → List ℕ :=
  chunk4Map fun r g b =>
    (toneByte factor bright r, toneByte factor bright g, toneByte factor bright b)

/-- Source `applyAdjustmentsToImageData`: early return when both knobs are
zero, otherwise the per-channel transform. -/
noncomputable def applyAdjustmentsToImageData (img : ImageData)
    (s : ProcessingSettings) : ImageData :=
  if s.brightness = 0 ∧ s.contrast = 0 then img
  else { img with data := adjustRGBA (contrastFactor s.contrast) s.brightness img.data }

/-- Source `WorkerProcessPayload`: an `ImageBitmap` is modelled as the pixel
surface it decodes to. -/
structure WorkerPayload where
  width : ℕ
  height : ℕ
  settings : ProcessingSettings
  bitmap : Option ImageData
  imageData : Option ImageData

/-- Payload of a `PROCESS_COMPLETE` response. -/
structure WorkerResult where
  width : ℕ
  height : ℕ
  bitmap : Option ImageData
  imageData : Option ImageData

/-- Worker-global mutable state: the capability flag, the reusable offscreen
canvas (its current pixel content), and the stored settings snapshot. -/
structure WorkerState where
  supportsOffscreen : Bool
  canvas : Option ImageData
  currentSettings : Option ProcessingSettings

/-- Source `WorkerIncomingMessage`. -/
inductive WIncoming where
  | INIT (id : ℕ)
  | UPDATE_SETTINGS (id : ℕ) (settings : ProcessingSettings)
  | PROCESS (id : ℕ) (payload : WorkerPayload)

/-- Source `WorkerOutgoingMessage`. -/
inductive WOutgoing where
  | READY (id : ℕ) (supportsOffscreen : Bool)
  | SETTINGS_ACK (id : ℕ)
  | PROCESS_COMPLETE (id : ℕ) (result : WorkerResult)
  | ERROR (id : ℕ) (message : String)

/-- Source `applyAdjustments` (canvas-context variant): skip when both knobs
are zero, otherwise run the pixel transform on the canvas content. -/
noncomputable def applyAdjustmentsCtx (content : ImageData)
    (s : ProcessingSettings) : ImageData :=
  if s.brightness = 0 ∧ s.contrast = 0 then content
  else applyAdjustmentsToImageData content s

/-- Source `processWithOffscreen`: draw the bitmap onto the reusable canvas
(modelled as taking over its pixels), adjust with `currentSettings ?? settings`,
and return the canvas content as the result bitmap. The model assumes the
offscreen drawing context is available whenever `OffscreenCanvas` is supported,
so the `Unable to prepare offscreen canvas` throw is unreachable. -/
noncomputable def processWithOffscreen (st : WorkerState) (bm : ImageData)
    (settings : ProcessingSettings) (w h : ℕ) :
    Except String (WorkerResult × Option ImageData) :=
  let adjusted := applyAdjustmentsCtx bm (st.currentSettings.getD settings)
  .ok (⟨w, h, some adjusted, none⟩, some adjusted)

/-- Source `processPayload`: prefer the offscreen path when a bitmap is present
and the capability exists; otherwise use the raw payload pixels (converting a
bitmap requires `OffscreenCanvas`, so without the capability that conversion
throws), adjusting with `currentSettings ?? payload.settings`. -/
noncomputable def processPayload (st : WorkerState) (p : WorkerPayload) :
    Except String (WorkerResult × Option ImageData) :=
  match p.bitmap with
  | some bm =>
      if st.supportsOffscreen then processWithOffscreen st bm p.settings p.width p.height
      else
        match p.imageData with
        | some d =>
            .ok (⟨p.width, p.height, none,
                  some (applyAdjustmentsToImageData d (st.currentSettings.getD p.settings))⟩,
                 st.canvas)
        | none => .error "OffscreenCanvas is not supported in this environment."
  | none =>
      match p.imageData with
      | some d =>
          .ok (⟨p.width, p.height, none,
                some (applyAdjustmentsToImageData d (st.currentSettings.getD p.settings))⟩,
               st.canvas)
      | none => .error "No image data available for processing."

/-- The worker's message handler: `INIT` reports the capability,
`UPDATE_SETTINGS` stores the snapshot, and `PROCESS` first overwrites
`currentSettings` with the payload's settings and then processes, answering
`PROCESS_COMPLETE` or `ERROR`. -/
noncomputable def stepWorker (st : WorkerState) (m : WIncoming) :
    WorkerState × WOutgoing :=
  match m with
  | .INIT id => (st, .READY id st.supportsOffscreen)
  | .UPDATE_SETTINGS id s => ({ st with currentSettings := some s }, .SETTINGS_ACK id)
  | .PROCESS id p =>
      let s1 := { st with currentSettings := some p.settings }
      match processPayload s1 p with
      | .ok (res, canvas2) => ({ s1 with canvas := canvas2 }, .PROCESS_COMPLETE id res)
      | .error e => (s1, .ERROR id e)

/-- Reference processing function for refinement: identical to
`processPayload` except that it uses the payload's own settings everywhere
and never consults a stored snapshot. -/
noncomputable def processPayloadPure (so : Bool) (p : WorkerPayload) :
    Except String WorkerResult :=
  match p.bitmap with
  | some bm =>
      if so then .ok ⟨p.width, p.height, some (applyAdjustmentsCtx bm p.settings), none⟩
      else
        match p.imageData with
        | some d =>
            .ok ⟨p.width, p.height, none, some (applyAdjustmentsToImageData d p.settings)⟩
        | none => .error "OffscreenCanvas is not supported in this environment."
  | none =>
      match p.imageData with
      | some d =>
          .ok ⟨p.width, p.height, none, some (applyAdjustmentsToImageData d p.settings)⟩
      | none => .error "No image data available for processing."

/-- A `File` as far as the load path inspects it: name, declared MIME type,
and byte length. -/
structure JsFile where
  name : String
  type : String
  size : ℕ
deriving DecidableEq

/-- The supported MIME-type set of the canvas stage. -/
def SUPPORTED_MIME_TYPES : List String :=
  ["image/png", "image/jpeg", "image/webp", "image/svg+xml"]

/-- The extension-to-MIME fallback map. -/
def EXTENSION_MIME_MAP : List (String × String) :=
  [("png", "image/png"), ("jpg", "image/jpeg"), ("jpeg", "image/jpeg"),
   ("webp", "image/webp"), ("svg", "image/svg+xml")]

/-- Source `FILE_SIZE_LIMIT_BYTES = 15 * 1024 * 1024`. -/
def FILE_SIZE_LIMIT_BYTES : ℕ := 15 * 1024 * 1024

/-- JS `String.prototype.toLowerCase`, character by character. -/
def lowerString (s : String) : String := ⟨s.data.map Char.toLower⟩

/-- JS `String.prototype.split(".")` over the character list. -/
def splitOnDot : List Char → List (List Char)
  | [] => [[]]
  | c :: rest =>
    if c = '.' then [] :: splitOnDot rest
    else
      match splitOnDot rest with
      | [] => [[c]]
      | seg :: segs => (c :: seg) :: segs

/-- Source `normaliseMimeType`: the lower-cased declared type wins when it is
non-empty and supported, else the lower-cased final extension
(`name.split(".").pop()`) is looked up in the fallback map. -/
def normaliseMimeType (f : JsFile) : Option String :=
  let declaredType := lowerString f.type
  if declaredType ≠ "" ∧ declaredType ∈ SUPPORTED_MIME_TYPES then some declaredType
  else
    let extension := lowerString ⟨(splitOnDot f.name.data).getLast?.getD []⟩
    EXTENSION_MIME_MAP.lookup extension

/-- Outcome of the `handleFiles` validation sequence for the first file. -/
inductive FileCheck where
  | unsupportedType
  | tooLarge
  | decode (mime : String)
deriving DecidableEq

/-- The validation sequence of `handleFiles`: MIME/extension validation first,
then the size ceiling, then decoding starts. -/
def handleFilesCheck (f : JsFile) : FileCheck :=
  match normaliseMimeType f with
  | none => .unsupportedType
  | some t =>
      if t ∉ SUPPORTED_MIME_TYPES then .unsupportedType
      else if FILE_SIZE_LIMIT_BYTES < f.size then .tooLarge
      else .decode t

/-- `DataView.getUint8`: `none` models the thrown RangeError on an
out-of-bounds read. -/
def viewU8 (b : List ℕ) (off : ℕ) : Option ℕ :=
  if off < b.length then some (b.getD off 0) else none

/-- `DataView.getUint16` with explicit endianness. -/
def viewU16 (b : List ℕ) (off : ℕ) (little : Bool) : Option ℕ := do
  let b0 ← viewU8 b off
  let b1 ← viewU8 b (off + 1)
  pure (if little then b1 * 256 + b0 else b0 * 256 + b1)

/-- `DataView.getUint32` with explicit endianness. -/
def viewU32 (b : List ℕ) (off : ℕ) (little : Bool) : Option ℕ := do
  let b0 ← viewU8 b off
  let b1 ← viewU8 b (off + 1)
  let b2 ← viewU8 b (off + 2)
  let b3 ← viewU8 b (off + 3)
  pure (if little then ((b3 * 256 + b2) * 256 + b1) * 256 + b0
        else ((b0 * 256 + b1) * 256 + b2) * 256 + b3)

/-- Source `getAscii`, as the list of bytes read. -/
def viewAscii (b : List ℕ) (start len : ℕ) : Option (List ℕ) :=
  (List.range len).mapM fun i => viewU8 b (start + i)

/-- The IFD entry scan of `getExifOrientation`: outer `none` is a thrown
bounds error, `some none` means tag `0x0112` was not among the entries,
`some (some v)` is the raw tag value. -/
def exifFindTag (b : List ℕ) (dirOff : ℕ) (little : Bool) :
    ℕ → ℕ → Option (Option ℕ)
  | _, 0 => some none
  | i, remaining + 1 =>
      match viewU16 b (dirOff + 2 + i * 12) little with
      | none => none
      | some tag =>
          if tag = 0x0112 then
            match viewU16 b (dirOff + 2 + i * 12 + 8) little with
            | none => none
            | some v => some (some v)
          else exifFindTag b dirOff little (i + 1) remaining

/-- The APP1 branch of the marker loop: check the Exif signature, read the
TIFF header endianness and first-IFD offset, and scan the entries. A failed
signature check `break`s to the default (`some none`). -/
def exifSegment (b : List ℕ) (offset : ℕ) : Option (Option ℕ) :=
  match viewU16 b (offset + 2) false with
  | none => none
  | some _segmentLength =>
      let exifStart := offset + 4
      match viewAscii b exifStart 4 with
      | none => none
      | some ascii =>
          if ascii ≠ [69, 120, 105, 102] then some none
          else
            let tiffOffset := exifStart + 6
            match viewU16 b tiffOffset false with
            | none => none
            | some endianWord =>
                let little := endianWord = 0x4949
                match viewU32 b (tiffOffset + 4) little with
                | none => none
                | some firstIFDOffset =>
                    let directoryOffset := tiffOffset + firstIFDOffset
                    match viewU16 b directoryOffset little with
                    | none => none
                    | some entries => exifFindTag b directoryOffset little 0 entries

/-- The `while (offset < length)` marker loop: a byte other than `0xff`
`break`s to the default; an APP1 marker enters the Exif branch; any other
marker skips its segment. Each step advances the offset by at least two, so
the loop terminates. -/
def exifLoop (b : List ℕ) (offset : ℕ) : Option (Option ℕ) :=
  if _h : offset < b.length then
    match viewU8 b offset with
    | none => none
    | some byte =>
        if byte ≠ 0xff then some none
        else
          match viewU8 b (offset + 1) with
          | none => none
          | some marker =>
              if marker = 0xe1 then exifSegment b offset
              else
                match viewU16 b (offset + 2) false with
                | none => none
                | some segmentLength => exifLoop b (offset + 2 + segmentLength)
  else some none
termination_by b.length - offset
decreasing_by simp_wf; omega

/-- The try-block of `getExifOrientation`: require the JPEG SOI marker, then
run the marker loop from offset 2. -/
def exifScan (b : List ℕ) : Option (Option ℕ) :=
  match viewU16 b 0 false with
  | none => none
  | some m => if m ≠ 0xffd8 then some none else exifLoop b 2

/-- Source `getExifOrientation`: a thrown bounds error (outer `none`) is
caught and defaults to 1; an absent or non-Exif segment defaults to 1; a found
tag returns `value || 1`. -/
def getExifOrientation (b : List ℕ) : ℕ :=
  match exifScan b with
  | some (some v) => if v = 0 then 1 else v
  | _ => 1

/-- The six `ctx.transform` arguments: `(x, y) ↦ (a·x + c·y + e, b·x + d·y + f)`. -/
structure Affine where
  a : ℚ
  b : ℚ
  c : ℚ
  d : ℚ
  e : ℚ
  f : ℚ
deriving DecidableEq

/-- Apply an affine transform to a point. -/
def applyAffine (m : Affine) (x y : ℚ) : ℚ × ℚ :=
  (m.a * x + m.c * y + m.e, m.b * x + m.d * y + m.f)

/-- The `ctx.transform` arguments chosen by `renderSourceToOrientedCanvas`
for each EXIF orientation (the default case is the identity). -/
def orientationMatrix (o : ℕ) (w h : ℚ) : Affine :=
  match o with
  | 2 => ⟨-1, 0, 0, 1, w, 0⟩
  | 3 => ⟨-1, 0, 0, -1, w, h⟩
  | 4 => ⟨1, 0, 0, -1, 0, h⟩
  | 5 => ⟨0, 1, 1, 0, 0, 0⟩
  | 6 => ⟨0, 1, -1, 0, h, 0⟩
  | 7 => ⟨0, -1, -1, 0, h, w⟩
  | 8 => ⟨0, -1, 1, 0, 0, w⟩
  | _ => ⟨1, 0, 0, 1, 0, 0⟩

/-- Canvas dimensions chosen by `renderSourceToOrientedCanvas`: orientations
5–8 swap width and height. -/
def orientedCanvasDims (w h : ℕ) (o : ℕ) : ℕ × ℕ :=
  if 5 ≤ o ∧ o ≤ 8 then (h, w) else (w, h)

/-- Modelled from the spec: the canonical point mapping for each EXIF
orientation 1–8 (identity, horizontal flip, 180° rotate, vertical flip,
transpose, 90° CW, anti-transpose, 90° CCW), in continuous source
coordinates of a `w × h` image. -/
def specCanonicalTransform (o : ℕ) (w h : ℚ) (x y : ℚ) : ℚ × ℚ :=
  match o with
  | 2 => (w - x, y)
  | 3 => (w - x, h - y)
  | 4 => (x, h - y)
  | 5 => (y, x)
  | 6 => (h - y, x)
  | 7 => (h - y, w - x)
  | 8 => (y, w - x)
  | _ => (x, y)

/-- The value a stride-4 chunk rewrite stores at byte `4*p + c`: for `c < 3`
the corresponding component of `f` applied to the pixel's original RGB bytes,
for `c = 3` the untouched alpha byte. -/
def chunkTarget (f : ℕ → ℕ → ℕ → RGBByte) (l : List ℕ) (p c : ℕ) : ℕ :=
  let t := f (l.getD (4 * p) 0) (l.getD (4 * p + 1) 0) (l.getD (4 * p + 2) 0)
  match c with
  | 0 => t.1
  | 1 => t.2.1
  | 2 => t.2.2
  | _ => l.getD (4 * p + 3) 0

/-- The RGB triple the ordered Bayer scan stores at pixel `(x, y)`, computed
from the original buffer alone. -/
def bayerPixel (w : ℕ) (si : ℚ) (q : QuantizeFn) (orig : List ℕ) (y x : ℕ) :
    RGBByte :=
  let index := (y * w + x) * 4
  let threshold := ((BAYER_8X8.getD ((y % 8) * 8 + x % 8) 0 : ℚ) + 1 / 2) / 64 - 1 / 2
  let offset := threshold * (si * 255)
  q (clampQ ((orig.getD index 0 : ℚ) + offset))
    (clampQ ((orig.getD (index + 1) 0 : ℚ) + offset))
    (clampQ ((orig.getD (index + 2) 0 : ℚ) + offset))

/-- Component projection of an RGB byte triple. -/
def rgbComp (t : RGBByte) (c : ℕ) : ℕ :=
  match c with
  | 0 => t.1
  | 1 => t.2.1
  | _ => t.2.2

/-- Loop invariant of the palette search: after scanning the entries in
`done`, the state is either still the initial one (`done` empty) or holds the
earliest entry of `done` at minimal squared distance, together with that
distance. -/
def NearestInv (r g b : ℚ) (done : List RGBByte) (st : RGBByte × Option ℚ) :
    Prop :=
  (st.2 = none ∧ done = []) ∨
    (∃ m, st.2 = some m ∧ m = dist2 r g b st.1 ∧
      ∃ i, i < done.length ∧ st.1 = done.getD i (0, 0, 0) ∧
        (∀ j, j < done.length → m ≤ dist2 r g b (done.getD j (0, 0, 0))) ∧
        (∀ j, j < i → dist2 r g b (done.getD j (0, 0, 0)) ≠ m))

/-! ## Helper lemmas -/

theorem getD_set_ne {α : Type} (l : List α) (i j : ℕ) (a d : α) (hij : i ≠ j) :
    (l.set i a).getD j d = l.getD j d := by
  simp [List.getD, List.getElem?_set_ne hij]

theorem getD_set_eq {α : Type} (l : List α) (i : ℕ) (a d : α) (h : i < l.length) :
    (l.set i a).getD i d = a := by
  simp [List.getD, List.getElem?_set_self, h]

theorem getD_of_length_le {α : Type} (l : List α) (n : ℕ) (d : α)
    (h : l.length ≤ n) : l.getD n d = d := by
  simp [List.getD, List.getElem?_eq_none h]

theorem getD_append_left {α : Type} (l₁ l₂ : List α) (j : ℕ) (d : α)
    (h : j < l₁.length) : (l₁ ++ l₂).getD j d = l₁.getD j d := by
  simp [List.getD, List.getElem?_append_left h]

theorem getD_append_len {α : Type} (l₁ : List α) (c d : α) :
    (l₁ ++ [c]).getD l₁.length d = c := by
  have h : l₁.length < (l₁ ++ [c]).length := by simp
  rw [List.getD_eq_getElem _ _ h]
  simp

theorem getD_map_cast : ∀ (l : List ℕ) (j : ℕ),
    (l.map fun n : ℕ => (n : ℚ)).getD j 0 = ((l.getD j 0 : ℕ) : ℚ)
  | [], j => by simp [List.getD]
  | a :: l, 0 => rfl
  | a :: l, j + 1 => by
      simp only [List.map_cons, List.getD_cons_succ]
      exact getD_map_cast l j

theorem exists_chunk4 : ∀ l : List ℕ, 3 < l.length →
    ∃ r g b a rest, l = r :: g :: b :: a :: rest
  | r :: g :: b :: a :: rest, _ => ⟨r, g, b, a, rest, rfl⟩
  | [], h => absurd h (by simp)
  | [_], h => absurd h (by simp)
  | [_, _], h => absurd h (by simp)
  | [_, _, _], h => absurd h (by simp)

theorem list_eq_of_getD {α : Type} (d : α) :
    ∀ l₁ l₂ : List α, l₁.length = l₂.length →
      (∀ j, j < l₁.length → l₁.getD j d = l₂.getD j d) → l₁ = l₂
  | [], [], _, _ => rfl
  | a :: l₁, b :: l₂, hl, hj => by
      have hab : a = b := hj 0 (by simp)
      have htail : l₁ = l₂ :=
        list_eq_of_getD d l₁ l₂ (by simpa using hl)
          (fun j hjl => by simpa using hj (j + 1) (by simpa using hjl))
      rw [hab, htail]
  | [], _ :: _, hl, _ => by simp at hl
  | _ :: _, [], hl, _ => by simp at hl

theorem chunk4Map_length (f : ℕ → ℕ → ℕ → RGBByte) :
    ∀ l : List ℕ, (chunk4Map f l).length = l.length
  | r :: g :: b :: a :: rest => by
      simp [chunk4Map, chunk4Map_length f rest]
  | [] => rfl
  | [_] => rfl
  | [_, _] => rfl
  | [_, _, _] => rfl

theorem getD_cons4 (r g b a : ℕ) (rest : List ℕ) (n : ℕ) :
    (r :: g :: b :: a :: rest).getD (n + 4) 0 = rest.getD n 0 := by
  have h : n + 4 = n + 1 + 1 + 1 + 1 := by ring
  rw [h]
  simp [List.getD_cons_succ]

theorem chunkTarget_cons (f : ℕ → ℕ → ℕ → RGBByte) (r g b a : ℕ)
    (rest : List ℕ) (p c : ℕ) :
    chunkTarget f (r :: g :: b :: a :: rest) (p + 1) c = chunkTarget f rest p c := by
  unfold chunkTarget
  have e0 : (r :: g :: b :: a :: rest).getD (4 * (p + 1)) 0 = rest.getD (4 * p) 0 := by
    rw [show 4 * (p + 1) = 4 * p + 4 by ring, getD_cons4]
  have e1 : (r :: g :: b :: a :: rest).getD (4 * (p + 1) + 1) 0 =
      rest.getD (4 * p + 1) 0 := by
    rw [show 4 * (p + 1) + 1 = (4 * p + 1) + 4 by ring, getD_cons4]
  have e2 : (r :: g :: b :: a :: rest).getD (4 * (p + 1) + 2) 0 =
      rest.getD (4 * p + 2) 0 := by
    rw [show 4 * (p + 1) + 2 = (4 * p + 2) + 4 by ring, getD_cons4]
  have e3 : (r :: g :: b :: a :: rest).getD (4 * (p + 1) + 3) 0 =
      rest.getD (4 * p + 3) 0 := by
    rw [show 4 * (p + 1) + 3 = (4 * p + 3) + 4 by ring, getD_cons4]
  rw [e0, e1, e2, e3]

theorem chunk4Map_getD (f : ℕ → ℕ → ℕ → RGBByte) :
    ∀ (p : ℕ) (l : List ℕ) (c : ℕ), c < 4 → 4 * p + 3 < l.length →
      (chunk4Map f l).getD (4 * p + c) 0 = chunkTarget f l p c := by
  intro p
  induction p with
  | zero =>
      intro l c hc hl
      obtain ⟨r, g, b, a, rest, rfl⟩ := exists_chunk4 l (by omega)
      interval_cases c <;> simp [chunk4Map, chunkTarget, List.getD]
  | succ p ih =>
      intro l c hc hl
      obtain ⟨r, g, b, a, rest, rfl⟩ := exists_chunk4 l (by omega)
      have hrest : 4 * p + 3 < rest.length := by
        simp only [List.length_cons] at hl; omega
      calc (chunk4Map f (r :: g :: b :: a :: rest)).getD (4 * (p + 1) + c) 0
          = (chunk4Map f rest).getD (4 * p + c) 0 := by
            rw [show 4 * (p + 1) + c = (4 * p + c) + 4 by ring]
            show ((f r g b).1 :: (f r g b).2.1 :: (f r g b).2.2 :: a ::
              chunk4Map f rest).getD ((4 * p + c) + 4) 0 = _
            rw [getD_cons4]
        _ = chunkTarget f rest p c := ih rest c hc hrest
        _ = chunkTarget f (r :: g :: b :: a :: rest) (p + 1) c :=
            (chunkTarget_cons f r g b a rest p c).symm

theorem chunk4Map_alpha (f : ℕ → ℕ → ℕ → RGBByte) :
    ∀ (l : List ℕ) (j : ℕ), j % 4 = 3 →
      (chunk4Map f l).getD j 0 = l.getD j 0
  | r :: g :: b :: a :: rest, j, hj => by
      rcases Nat.lt_or_ge j 4 with h4 | h4
      · have : j = 3 := by omega
        subst this
        simp [chunk4Map, List.getD]
      · obtain ⟨j', rfl⟩ : ∃ j', j = j' + 4 := ⟨j - 4, by omega⟩
        have hj' : j' % 4 = 3 := by omega
        show ((f r g b).1 :: (f r g b).2.1 :: (f r g b).2.2 :: a ::
          chunk4Map f rest).getD (j' + 4) 0 = _
        rw [getD_cons4, getD_cons4]
        exact chunk4Map_alpha f rest j' hj'
  | [], _, _ => rfl
  | [_], _, _ => rfl
  | [_, _], _, _ => rfl
  | [_, _, _], _, _ => rfl

theorem ext_map_supported (e t : String) (h : EXTENSION_MIME_MAP.lookup e = some t) :
    t ∈ SUPPORTED_MIME_TYPES := by
  simp only [EXTENSION_MIME_MAP, List.lookup] at h
  repeat' split at h
  all_goals simp_all [SUPPORTED_MIME_TYPES]

theorem normalise_supported (f : JsFile) (t : String)
    (h : normaliseMimeType f = some t) : t ∈ SUPPORTED_MIME_TYPES := by
  simp only [normaliseMimeType] at h
  split_ifs at h with hd
  · simp only [Option.some.injEq] at h
    subst h
    exact hd.2
  · exact ext_map_supported _ _ h

/-! ## Claim theorems -/

/-- C2, counterexample: a 15,728,641-byte file of unsupported type is rejected
as `unsupportedType`, not with the file-too-large error, because `handleFiles`
performs MIME/extension validation before the size check. This refutes the
claim that every file of at least 15,728,641 bytes fails with the
file-too-large error before any format sniffing. -/
theorem c2_size_check_counterexample :
    handleFilesCheck ⟨"notes.txt", "text/plain", 15728641⟩ = FileCheck.unsupportedType ∧
      FileCheck.unsupportedType ≠ FileCheck.tooLarge ∧
      FILE_SIZE_LIMIT_BYTES + 1 ≤ 15728641 :=
  ⟨by decide, by decide, by decide⟩

/-- C2, amended: for every file that passes MIME/extension validation and
whose byte length is at least 15,728,641 (that is, exceeds the 15 MiB
ceiling), the load path fails with the file-too-large error before any decode
work; the format check precedes the size check. -/
theorem c2_size_check_amended (f : JsFile) (t : String)
    (hmime : normaliseMimeType f = some t)
    (hsize : FILE_SIZE_LIMIT_BYTES < f.size) :
    handleFilesCheck f = FileCheck.tooLarge := by
  unfold handleFilesCheck
  rw [hmime]
  have hsup : t ∈ SUPPORTED_MIME_TYPES := normalise_supported f t hmime
  simp [hsup, hsize]

/-- C2, witness for the amended theorem at a concrete oversized PNG file. -/
theorem c2_size_check_amended_witness :
    normaliseMimeType ⟨"big.png", "image/png", 15728641⟩ = some "image/png" ∧
      FILE_SIZE_LIMIT_BYTES < 15728641 ∧
      handleFilesCheck ⟨"big.png", "image/png", 15728641⟩ = FileCheck.tooLarge :=
  ⟨by decide, by decide,
    c2_size_check_amended ⟨"big.png", "image/png", 15728641⟩ "image/png"
      (by decide) (by decide)⟩

/-- C5: the EXIF orientation scan is a total function that defaults to 1 on
every failure path: whenever the result is not the default 1, the scan
actually found tag 0x0112 in bounds with a raw value of at least 2; in every
other case — thrown bounds error (`exifScan b = none`), absent or malformed
structure (`exifScan b = some none`), or a zero/one tag value — the result is
the default orientation 1. -/
theorem c5_exif_default (b : List ℕ) :
    1 ≤ getExifOrientation b ∧
      (getExifOrientation b = 1 ∨
        ∃ v, exifScan b = some (some v) ∧ 2 ≤ v ∧ getExifOrientation b = v) := by
  rcases h : exifScan b with _ | ov
  · constructor
    · simp [getExifOrientation, h]
    · left
      simp [getExifOrientation, h]
  · rcases ov with _ | v
    · constructor
      · simp [getExifOrientation, h]
      · left
        simp [getExifOrientation, h]
    · by_cases hv2 : 2 ≤ v
      · have hv0 : v ≠ 0 := by omega
        constructor
        · simp only [getExifOrientation, h, if_neg hv0]
          omega
        · right
          exact ⟨v, rfl, hv2, by simp [getExifOrientation, h, hv0]⟩

      · have hcase : v = 0 ∨ v = 1 := by omega
        rcases hcase with rfl | rfl
        · constructor
          · simp [getExifOrientation, h]
          · left
            simp [getExifOrientation, h]
        · constructor
          · simp [getExifOrientation, h]
          · left
            simp [getExifOrientation, h]

/-- C8: for every orientation value 1–8, the `ctx.transform` matrix chosen by
the decoder implements the canonical 2D point mapping (identity, horizontal
flip, 180° rotate, vertical flip, transpose, 90° CW, anti-transpose, 90° CCW),
and the output canvas swaps width and height exactly for orientations 5–8. -/
theorem c8_orientation_transform (o : ℕ) (h1 : 1 ≤ o) (h8 : o ≤ 8)
    (w h : ℕ) (x y : ℚ) :
    applyAffine (orientationMatrix o (w : ℚ) (h : ℚ)) x y =
        specCanonicalTransform o (w : ℚ) (h : ℚ) x y ∧
      orientedCanvasDims w h o = (if 5 ≤ o then (h, w) else (w, h)) := by
  interval_cases o <;>
    refine ⟨?_, ?_⟩ <;>
      simp [applyAffine, orientationMatrix, specCanonicalTransform,
        orientedCanvasDims, Prod.ext_iff] <;>
      first
        | exact ⟨trivial, trivial⟩
        | (constructor <;> ring)
        | ring

/-- C8, witness at orientation 6 (90° CW) on a 2×3 source. -/
theorem c8_orientation_transform_witness :
    (1 : ℕ) ≤ 6 ∧ (6 : ℕ) ≤ 8 ∧
      (applyAffine (orientationMatrix 6 ((2 : ℕ) : ℚ) ((3 : ℕ) : ℚ)) 5 7 =
          specCanonicalTransform 6 ((2 : ℕ) : ℚ) ((3 : ℕ) : ℚ) 5 7 ∧
        orientedCanvasDims 2 3 6 = (if 5 ≤ 6 then (3, 2) else (2, 3))) :=
  ⟨by norm_num, by norm_num,
    c8_orientation_transform 6 (by norm_num) (by norm_num) 2 3 5 7⟩

/-- C3: the response the worker produces for a `PROCESS` message is exactly
the one computed with the payload's own settings (`processPayloadPure`),
whatever settings snapshot was stored beforehand: the handler overwrites
`currentSettings` with the payload's settings before processing, so the
`currentSettings ?? payload.settings` fallbacks always resolve to the
payload's settings. -/
theorem c3_process_uses_payload_settings (st : WorkerState) (id : ℕ)
    (p : WorkerPayload) :
    (stepWorker st (.PROCESS id p)).2 =
      (match processPayloadPure st.supportsOffscreen p with
        | .ok r => WOutgoing.PROCESS_COMPLETE id r
        | .error e => WOutgoing.ERROR id e) := by
  rcases st with ⟨so, canvas, cs⟩
  rcases p with ⟨pw, ph, ps, bm, idat⟩
  rcases bm with _ | bmv <;> rcases idat with _ | idv <;> rcases so <;>
    simp [stepWorker, processPayload, processPayloadPure, processWithOffscreen,
      Option.getD]

/-- C10: handling a `PROCESS` message always leaves the payload's settings
stored as the worker's current snapshot — the assignment happens before
processing is attempted, so the stored settings equal the request's settings
even when processing fails and an `ERROR` response is produced. -/
theorem c10_settings_stored_before_processing (st : WorkerState) (id : ℕ)
    (p : WorkerPayload) :
    (stepWorker st (.PROCESS id p)).1.currentSettings = some p.settings := by
  unfold stepWorker
  cases h : processPayload { st with currentSettings := some p.settings } p with
  | ok rc =>
      obtain ⟨res, c2⟩ := rc
      simp [h]
  | error e => simp [h]

theorem contrastFactor_zero : contrastFactor 0 = 1 := by
  unfold contrastFactor
  rw [show (((0 : ℚ) : ℝ) + 1) * Real.pi / 4 = Real.pi / 4 by push_cast; ring]
  exact Real.tan_pi_div_four

theorem halfEvenRound_natCast (n : ℕ) : halfEvenRound (n : ℝ) = n := by
  have h : ((n : ℝ)) - ((⌊(n : ℝ)⌋ : ℤ) : ℝ) = 0 := by simp [Int.floor_natCast]
  unfold halfEvenRound
  rw [if_pos]
  · exact Int.floor_natCast n
  · rw [h]
    norm_num

theorem clampReal_natCast (m : ℕ) : clampReal (m : ℝ) = ((min m 255 : ℕ) : ℝ) := by
  unfold clampReal
  rcases le_or_lt m 255 with h | h
  · rw [min_eq_right (by exact_mod_cast h : (m : ℝ) ≤ 255),
      max_eq_right (by positivity : (0 : ℝ) ≤ (m : ℝ)), min_eq_left h]
  · rw [min_eq_left (by exact_mod_cast h.le : (255 : ℝ) ≤ (m : ℝ)),
      min_eq_right h.le]
    norm_num

theorem toneByte_one_ten (v : ℕ) : toneByte 1 10 v = min (v + 10) 255 := by
  unfold toneByte
  have h1 : (1 : ℝ) * ((v : ℝ) - 128) + 128 + ((10 : ℚ) : ℝ) = ((v + 10 : ℕ) : ℝ) := by
    push_cast
    ring
  rw [h1, clampReal_natCast, halfEvenRound_natCast, Int.toNat_natCast]

theorem toneByte_id (v : ℕ) (h : v ≤ 255) : toneByte 1 0 v = v := by
  unfold toneByte
  have h1 : (1 : ℝ) * ((v : ℝ) - 128) + 128 + ((0 : ℚ) : ℝ) = ((v : ℕ) : ℝ) := by
    push_cast
    ring
  rw [h1, clampReal_natCast, halfEvenRound_natCast, Int.toNat_natCast,
    min_eq_left h]

/-- C7: every R, G, B byte of the tone-adjusted surface equals the
clamped-array store of `clamp(factor * (input - 128) + 128 + brightness)` with
`factor = tan((contrast + 1)·π/4)` (this is `toneByte`), alpha bytes being
outside the rewritten positions; and at `contrast = 0`, `brightness = 10`
every such byte equals `clamp(v + 10, 0, 255) = min (v + 10) 255`. -/
theorem c7_tone_formula (img : ImageData) (s : ProcessingSettings) (p c : ℕ)
    (hc : c < 3) (hp : 4 * p + 3 < img.data.length)
    (hbytes : ∀ v ∈ img.data, v ≤ 255) :
    (applyAdjustmentsToImageData img s).data.getD (4 * p + c) 0 =
        toneByte (contrastFactor s.contrast) s.brightness
          (img.data.getD (4 * p + c) 0) ∧
      (s.contrast = 0 → s.brightness = 10 →
        (applyAdjustmentsToImageData img s).data.getD (4 * p + c) 0 =
          min (img.data.getD (4 * p + c) 0 + 10) 255) := by
  have hvmem : img.data.getD (4 * p + c) 0 ≤ 255 := by
    have hlt : 4 * p + c < img.data.length := by omega
    rw [List.getD_eq_getElem _ _ hlt]
    exact hbytes _ (List.getElem_mem hlt)
  have main : (applyAdjustmentsToImageData img s).data.getD (4 * p + c) 0 =
      toneByte (contrastFactor s.contrast) s.brightness
        (img.data.getD (4 * p + c) 0) := by
    unfold applyAdjustmentsToImageData
    split_ifs with hz
    · obtain ⟨hb0, hc0⟩ := hz
      rw [hb0, hc0, contrastFactor_zero]
      exact (toneByte_id _ hvmem).symm
    · show (adjustRGBA (contrastFactor s.contrast) s.brightness img.data).getD
        (4 * p + c) 0 = _
      unfold adjustRGBA
      rw [chunk4Map_getD _ p img.data c (by omega) hp]
      interval_cases c <;> simp [chunkTarget]
  refine ⟨main, fun hc0 hb10 => ?_⟩
  rw [main, hc0, hb10, contrastFactor_zero, toneByte_one_ten]

/-- C7, witness on a concrete 1×1 surface with brightness 10 and contrast 0. -/
theorem c7_tone_formula_witness :
    (0 : ℕ) < 3 ∧
      4 * 0 + 3 < (ImageData.mk 1 1 [0, 100, 250, 7]).data.length ∧
      (∀ v ∈ (ImageData.mk 1 1 [0, 100, 250, 7]).data, v ≤ 255) ∧
      ((applyAdjustmentsToImageData (ImageData.mk 1 1 [0, 100, 250, 7])
            ⟨"none", 8, 0, 10, 0, "original", true, none⟩).data.getD (4 * 0 + 0) 0 =
          toneByte
            (contrastFactor (⟨"none", 8, 0, 10, 0, "original", true, none⟩ :
              ProcessingSettings).contrast)
            (⟨"none", 8, 0, 10, 0, "original", true, none⟩ :
              ProcessingSettings).brightness
            ((ImageData.mk 1 1 [0, 100, 250, 7]).data.getD (4 * 0 + 0) 0) ∧
        ((⟨"none", 8, 0, 10, 0, "original", true, none⟩ :
            ProcessingSettings).contrast = 0 →
          (⟨"none", 8, 0, 10, 0, "original", true, none⟩ :
            ProcessingSettings).brightness = 10 →
          (applyAdjustmentsToImageData (ImageData.mk 1 1 [0, 100, 250, 7])
              ⟨"none", 8, 0, 10, 0, "original", true, none⟩).data.getD (4 * 0 + 0) 0 =
            min ((ImageData.mk 1 1 [0, 100, 250, 7]).data.getD (4 * 0 + 0) 0 + 10)
              255)) :=
  ⟨by decide, by decide, by decide,
    c7_tone_formula (ImageData.mk 1 1 [0, 100, 250, 7])
      ⟨"none", 8, 0, 10, 0, "original", true, none⟩ 0 0
      (by decide) (by decide) (by decide)⟩

theorem nearestInv_step (r g b : ℚ) (done : List RGBByte)
    (st : RGBByte × Option ℚ) (cand : RGBByte)
    (h : NearestInv r g b done st) :
    NearestInv r g b (done ++ [cand]) (nearestStep r g b st cand) := by
  rcases h with ⟨h2, rfl⟩ | ⟨m, h2, hm, i, hi, hsti, hmin, htie⟩
  · have hstep : nearestStep r g b st cand = (cand, some (dist2 r g b cand)) := by
      simp [nearestStep, h2]
    right
    refine ⟨dist2 r g b cand, by simp [hstep], by simp [hstep], 0, by simp, by simp [hstep],
      ?_, ?_⟩
    · intro j hj
      simp only [List.nil_append, List.length_cons, List.length_nil] at hj
      have : j = 0 := by omega
      subst this
      simp
    · intro j hj
      omega
  · have hstep : nearestStep r g b st cand =
        (if dist2 r g b cand < m then (cand, some (dist2 r g b cand)) else st) := by
      simp [nearestStep, h2]
    by_cases hlt : dist2 r g b cand < m
    · right
      rw [hstep, if_pos hlt]
      refine ⟨dist2 r g b cand, rfl, rfl, done.length, by simp, (getD_append_len done cand _).symm,
        ?_, ?_⟩
      · intro j hj
        simp only [List.length_append, List.length_cons, List.length_nil] at hj
        rcases Nat.lt_or_ge j done.length with hjd | hjd
        · rw [getD_append_left _ _ _ _ hjd]
          exact le_of_lt (lt_of_lt_of_le hlt (hmin j hjd))
        · have : j = done.length := by omega
          subst this
          rw [getD_append_len]
      · intro j hj
        rw [getD_append_left _ _ _ _ hj]
        have : dist2 r g b cand < dist2 r g b (done.getD j (0, 0, 0)) :=
          lt_of_lt_of_le hlt (hmin j hj)
        exact (ne_of_gt this)
    · right
      rw [hstep, if_neg hlt]
      refine ⟨m, h2, hm, i, ?_, ?_, ?_, ?_⟩
      · simp only [List.length_append, List.length_cons, List.length_nil]
        omega
      · rw [getD_append_left _ _ _ _ hi]
        exact hsti
      · intro j hj
        simp only [List.length_append, List.length_cons, List.length_nil] at hj
        rcases Nat.lt_or_ge j done.length with hjd | hjd
        · rw [getD_append_left _ _ _ _ hjd]
          exact hmin j hjd
        · have : j = done.length := by omega
          subst this
          rw [getD_append_len]
          exact not_lt.mp hlt
      · intro j hj
        rw [getD_append_left _ _ _ _ (lt_trans hj hi)]
        exact htie j hj

theorem nearestInv_foldl (r g b : ℚ) :
    ∀ (rest : List RGBByte) (done : List RGBByte) (st : RGBByte × Option ℚ),
      NearestInv r g b done st →
      NearestInv r g b (done ++ rest) (rest.foldl (nearestStep r g b) st)
  | [], done, st, h => by simpa using h
  | c :: cs, done, st, h => by
      have h1 := nearestInv_step r g b done st c h
      have h2 := nearestInv_foldl r g b cs (done ++ [c]) (nearestStep r g b st c) h1
      simpa using h2

/-- C4: for a non-empty palette, the palette-mode quantizer returns a member
of the once-clamped palette (`normalisePalette`), namely the entry at minimal
squared Euclidean RGB distance to the input, and among minimal entries the
earliest in palette order: no strictly earlier entry attains the same
distance. -/
theorem c4_palette_nearest (pal : List (ℚ × ℚ × ℚ)) (levels : ℚ)
    (mode : QuantizationMode) (r g b : ℚ) (hpal : pal ≠ []) :
    createQuantizer ⟨some pal, levels, mode⟩ r g b ∈ normalisePalette pal ∧
      ∃ i, i < (normalisePalette pal).length ∧
        createQuantizer ⟨some pal, levels, mode⟩ r g b =
          (normalisePalette pal).getD i (0, 0, 0) ∧
        (∀ j, j < (normalisePalette pal).length →
          dist2 r g b ((normalisePalette pal).getD i (0, 0, 0)) ≤
            dist2 r g b ((normalisePalette pal).getD j (0, 0, 0))) ∧
        (∀ j, j < i →
          dist2 r g b ((normalisePalette pal).getD j (0, 0, 0)) ≠
            dist2 r g b ((normalisePalette pal).getD i (0, 0, 0))) := by
  have hlen : 0 < pal.length := List.length_pos.mpr hpal
  have hq : createQuantizer ⟨some pal, levels, mode⟩ r g b =
      paletteNearest (normalisePalette pal) r g b := by
    simp [createQuantizer, hlen]
  have hnp_ne : normalisePalette pal ≠ [] := by
    intro hmap
    exact hpal (List.map_eq_nil_iff.mp hmap)
  have hInv := nearestInv_foldl r g b (normalisePalette pal) []
    ((normalisePalette pal).headD (0, 0, 0), none) (Or.inl ⟨rfl, rfl⟩)
  rw [List.nil_append] at hInv
  rcases hInv with ⟨_, hcontra⟩ | ⟨m, _, hm, i, hi, hsti, hmin, htie⟩
  · exact absurd hcontra hnp_ne
  · have hres : createQuantizer ⟨some pal, levels, mode⟩ r g b =
        (normalisePalette pal).getD i (0, 0, 0) := by
      rw [hq]
      exact hsti
    constructor
    · rw [hres, List.getD_eq_getElem _ _ hi]
      exact List.getElem_mem hi
    · refine ⟨i, hi, hres, ?_, ?_⟩
      · intro j hj
        have := hmin j hj
        rw [hm, hsti] at this
        exact this
      · intro j hj
        have := htie j hj
        rw [hm, hsti] at this
        exact this

/-- C4, witness on the palette `[(300, −5, 10), (1, 2, 3)]` (whose first
entry is clamped to `(255, 0, 10)`) at input `(0, 0, 0)`. -/
theorem c4_palette_nearest_witness :
    ([((300 : ℚ), (-5 : ℚ), (10 : ℚ)), (1, 2, 3)] : List (ℚ × ℚ × ℚ)) ≠ [] ∧
      (createQuantizer ⟨some [((300 : ℚ), (-5 : ℚ), (10 : ℚ)), (1, 2, 3)], 2,
            QuantizationMode.grayscale⟩ 0 0 0 ∈
          normalisePalette [((300 : ℚ), (-5 : ℚ), (10 : ℚ)), (1, 2, 3)] ∧
        ∃ i, i < (normalisePalette [((300 : ℚ), (-5 : ℚ), (10 : ℚ)), (1, 2, 3)]).length ∧
          createQuantizer ⟨some [((300 : ℚ), (-5 : ℚ), (10 : ℚ)), (1, 2, 3)], 2,
              QuantizationMode.grayscale⟩ 0 0 0 =
            (normalisePalette [((300 : ℚ), (-5 : ℚ), (10 : ℚ)), (1, 2, 3)]).getD i (0, 0, 0) ∧
          (∀ j, j < (normalisePalette [((300 : ℚ), (-5 : ℚ), (10 : ℚ)), (1, 2, 3)]).length →
            dist2 0 0 0
                ((normalisePalette [((300 : ℚ), (-5 : ℚ), (10 : ℚ)), (1, 2, 3)]).getD i (0, 0, 0)) ≤
              dist2 0 0 0
                ((normalisePalette [((300 : ℚ), (-5 : ℚ), (10 : ℚ)), (1, 2, 3)]).getD j (0, 0, 0))) ∧
          (∀ j, j < i →
            dist2 0 0 0
                ((normalisePalette [((300 : ℚ), (-5 : ℚ), (10 : ℚ)), (1, 2, 3)]).getD j (0, 0, 0)) ≠
              dist2 0 0 0
                ((normalisePalette [((300 : ℚ), (-5 : ℚ), (10 : ℚ)), (1, 2, 3)]).getD i (0, 0, 0)))) :=
  ⟨by decide,
    c4_palette_nearest [((300 : ℚ), (-5 : ℚ), (10 : ℚ)), (1, 2, 3)] 2
      QuantizationMode.grayscale 0 0 0 (by decide)⟩

theorem fsStep_data_alpha (w h : ℕ) (q : QuantizeFn) (si : ℚ) (s : FSState)
    (yx : ℕ × ℕ) (j : ℕ) (hj : j % 4 = 3) :
    (fsStep w h q si s yx).data.getD j 0 = s.data.getD j 0 := by
  have hmod : ((yx.1 * w + yx.2) * 4) % 4 = 0 := Nat.mul_mod_left _ 4
  have h0 : (yx.1 * w + yx.2) * 4 ≠ j := by omega
  have h1 : (yx.1 * w + yx.2) * 4 + 1 ≠ j := by omega
  have h2 : (yx.1 * w + yx.2) * 4 + 2 ≠ j := by omega
  unfold fsStep
  split_ifs <;>
    simp only [getD_set_ne _ _ _ _ _ h2, getD_set_ne _ _ _ _ _ h1,
      getD_set_ne _ _ _ _ _ h0]

theorem fs_foldl_alpha (w h : ℕ) (q : QuantizeFn) (si : ℚ) :
    ∀ (yxs : List (ℕ × ℕ)) (s : FSState) (j : ℕ), j % 4 = 3 →
      ((yxs.foldl (fsStep w h q si) s).data).getD j 0 = s.data.getD j 0
  | [], _, _, _ => rfl
  | yx :: yxs, s, j, hj => by
      rw [List.foldl_cons, fs_foldl_alpha w h q si yxs _ j hj,
        fsStep_data_alpha w h q si s yx j hj]

theorem bayerStep_alpha (w : ℕ) (si : ℚ) (q : QuantizeFn) (data : List ℕ)
    (yx : ℕ × ℕ) (j : ℕ) (hj : j % 4 = 3) :
    (bayerStep w si q data yx).getD j 0 = data.getD j 0 := by
  have hmod : ((yx.1 * w + yx.2) * 4) % 4 = 0 := Nat.mul_mod_left _ 4
  have h0 : (yx.1 * w + yx.2) * 4 ≠ j := by omega
  have h1 : (yx.1 * w + yx.2) * 4 + 1 ≠ j := by omega
  have h2 : (yx.1 * w + yx.2) * 4 + 2 ≠ j := by omega
  unfold bayerStep
  simp only [getD_set_ne _ _ _ _ _ h2, getD_set_ne _ _ _ _ _ h1,
    getD_set_ne _ _ _ _ _ h0]

theorem bayer_foldl_alpha (w : ℕ) (si : ℚ) (q : QuantizeFn) :
    ∀ (yxs : List (ℕ × ℕ)) (data : List ℕ) (j : ℕ), j % 4 = 3 →
      (yxs.foldl (bayerStep w si q) data).getD j 0 = data.getD j 0
  | [], _, _, _ => rfl
  | yx :: yxs, data, j, hj => by
      rw [List.foldl_cons, bayer_foldl_alpha w si q yxs _ j hj,
        bayerStep_alpha w si q data yx j hj]

/-- C9: every processing stage — tone adjustment, direct quantization,
Floyd–Steinberg dithering, and ordered Bayer dithering — leaves every alpha
byte (index `4k + 3`) of the buffer unchanged: only R, G, B positions are
ever written. -/
theorem c9_alpha_untouched (j : ℕ) (hj : j % 4 = 3) (img : ImageData)
    (s : ProcessingSettings) (q : QuantizeFn) (i1 i2 : ℚ) :
    (applyAdjustmentsToImageData img s).data.getD j 0 = img.data.getD j 0 ∧
      (quantizeImageData img q).data.getD j 0 = img.data.getD j 0 ∧
      (floydSteinbergApply img i1 q).data.getD j 0 = img.data.getD j 0 ∧
      (orderedBayerApply img i2 q).data.getD j 0 = img.data.getD j 0 := by
  refine ⟨?_, ?_, ?_, ?_⟩
  · unfold applyAdjustmentsToImageData
    split_ifs with hz
    · rfl
    · exact chunk4Map_alpha _ img.data j hj
  · exact chunk4Map_alpha _ img.data j hj
  · exact fs_foldl_alpha img.width img.height q _ (loopPixels img.width img.height)
      ⟨img.data, img.data.map fun n : ℕ => (n : ℚ)⟩ j hj
  · exact bayer_foldl_alpha img.width _ q (loopPixels img.width img.height)
      img.data j hj

/-- C9, witness at alpha index 3 of a concrete 1×1 surface. -/
theorem c9_alpha_untouched_witness :
    (3 : ℕ) % 4 = 3 ∧
      ((applyAdjustmentsToImageData (ImageData.mk 1 1 [1, 2, 3, 4])
            ⟨"none", 8, 0, 0, 0, "original", true, none⟩).data.getD 3 0 =
          (ImageData.mk 1 1 [1, 2, 3, 4]).data.getD 3 0 ∧
        (quantizeImageData (ImageData.mk 1 1 [1, 2, 3, 4])
            (createQuantizer ⟨none, 2, QuantizationMode.grayscale⟩)).data.getD 3 0 =
          (ImageData.mk 1 1 [1, 2, 3, 4]).data.getD 3 0 ∧
        (floydSteinbergApply (ImageData.mk 1 1 [1, 2, 3, 4]) (1 / 2)
            (createQuantizer ⟨none, 2, QuantizationMode.grayscale⟩)).data.getD 3 0 =
          (ImageData.mk 1 1 [1, 2, 3, 4]).data.getD 3 0 ∧
        (orderedBayerApply (ImageData.mk 1 1 [1, 2, 3, 4]) (1 / 2)
            (createQuantizer ⟨none, 2, QuantizationMode.grayscale⟩)).data.getD 3 0 =
          (ImageData.mk 1 1 [1, 2, 3, 4]).data.getD 3 0) :=
  ⟨by decide,
    c9_alpha_untouched 3 (by decide) (ImageData.mk 1 1 [1, 2, 3, 4])
      ⟨"none", 8, 0, 0, 0, "original", true, none⟩
      (createQuantizer ⟨none, 2, QuantizationMode.grayscale⟩) (1 / 2) (1 / 2)⟩

theorem flatMap_const_nil {α β : Type} : ∀ l : List α,
    (l.flatMap fun _ => ([] : List β)) = []
  | [] => rfl
  | a :: l => by simp [List.flatMap_cons, flatMap_const_nil l]

theorem loopPixels_eq (w h : ℕ) :
    loopPixels w h = (List.range (h * w)).map fun p => (p / w, p % w) := by
  rcases Nat.eq_zero_or_pos w with rfl | hw
  · simp [loopPixels, flatMap_const_nil]
  · induction h with
    | zero => simp [loopPixels]
    | succ h ih =>
        have key : ∀ x ∈ List.range w,
            (fun p => (p / w, p % w)) (h * w + x) = (h, x) := by
          intro x hx
          have hxw : x < w := List.mem_range.mp hx
          have e1 : (h * w + x) / w = h := by
            rw [Nat.add_comm, Nat.mul_comm, Nat.add_mul_div_left _ _ hw,
              Nat.div_eq_of_lt hxw, Nat.zero_add]
          have e2 : (h * w + x) % w = x := by
            rw [Nat.add_comm, Nat.mul_comm, Nat.add_mul_mod_self_left,
              Nat.mod_eq_of_lt hxw]
          simp [e1, e2]
        calc loopPixels w (h + 1)
            = loopPixels w h ++ (List.range w).map (fun x => (h, x)) := by
              unfold loopPixels
              rw [List.range_succ, List.flatMap_append]
              simp
          _ = (List.range (h * w)).map (fun p => (p / w, p % w)) ++
                (List.range w).map (fun x => (h, x)) := by rw [ih]
          _ = (List.range (h * w)).map (fun p => (p / w, p % w)) ++
                ((List.range w).map (h * w + ·)).map (fun p => (p / w, p % w)) := by
              congr 1
              rw [List.map_map]
              exact (List.map_congr_left key).symm
          _ = (List.range (h * w + w)).map (fun p => (p / w, p % w)) := by
              rw [List.range_add, List.map_append]
          _ = (List.range ((h + 1) * w)).map (fun p => (p / w, p % w)) := by
              rw [Nat.succ_mul]

theorem foldl_range_map_succ {α β : Type} (f : α → β → α) (pc : ℕ → β)
    (init : α) (k : ℕ) :
    ((List.range (k + 1)).map pc).foldl f init =
      f (((List.range k).map pc).foldl f init) (pc k) := by
  rw [List.range_succ, List.map_append, List.foldl_append]
  rfl

theorem fsStep_zero_data (w h : ℕ) (q : QuantizeFn) (s : FSState) (y x : ℕ) :
    (fsStep w h q 0 s (y, x)).data =
      ((s.data.set ((y * w + x) * 4)
            (q (s.diffused.getD ((y * w + x) * 4) 0)
              (s.diffused.getD ((y * w + x) * 4 + 1) 0)
              (s.diffused.getD ((y * w + x) * 4 + 2) 0)).1).set
          ((y * w + x) * 4 + 1)
            (q (s.diffused.getD ((y * w + x) * 4) 0)
              (s.diffused.getD ((y * w + x) * 4 + 1) 0)
              (s.diffused.getD ((y * w + x) * 4 + 2) 0)).2.1).set
        ((y * w + x) * 4 + 2)
          (q (s.diffused.getD ((y * w + x) * 4) 0)
            (s.diffused.getD ((y * w + x) * 4 + 1) 0)
            (s.diffused.getD ((y * w + x) * 4 + 2) 0)).2.2 := by
  unfold fsStep
  rw [if_pos rfl]

theorem fsStep_zero_diffused (w h : ℕ) (q : QuantizeFn) (s : FSState) (y x : ℕ) :
    (fsStep w h q 0 s (y, x)).diffused =
      ((s.diffused.set ((y * w + x) * 4)
            ((q (s.diffused.getD ((y * w + x) * 4) 0)
              (s.diffused.getD ((y * w + x) * 4 + 1) 0)
              (s.diffused.getD ((y * w + x) * 4 + 2) 0)).1 : ℚ)).set
          ((y * w + x) * 4 + 1)
            ((q (s.diffused.getD ((y * w + x) * 4) 0)
              (s.diffused.getD ((y * w + x) * 4 + 1) 0)
              (s.diffused.getD ((y * w + x) * 4 + 2) 0)).2.1 : ℚ)).set
        ((y * w + x) * 4 + 2)
          ((q (s.diffused.getD ((y * w + x) * 4) 0)
            (s.diffused.getD ((y * w + x) * 4 + 1) 0)
            (s.diffused.getD ((y * w + x) * 4 + 2) 0)).2.2 : ℚ) := by
  unfold fsStep
  rw [if_pos rfl]

theorem fs_zero_data (w h : ℕ) (q : QuantizeFn) (orig : List ℕ)
    (hlen : orig.length = w * h * 4) :
    ((loopPixels w h).foldl (fsStep w h q 0)
        ⟨orig, orig.map fun n : ℕ => (n : ℚ)⟩).data =
      chunk4Map (fun r g b => q r g b) orig := by
  have hlen2 : orig.length = 4 * (h * w) := by rw [hlen]; ring
  rw [loopPixels_eq]
  have main : ∀ k, k ≤ h * w →
      (((List.range k).map fun p => (p / w, p % w)).foldl (fsStep w h q 0)
          ⟨orig, orig.map fun n : ℕ => (n : ℚ)⟩).data.length = orig.length ∧
      (((List.range k).map fun p => (p / w, p % w)).foldl (fsStep w h q 0)
          ⟨orig, orig.map fun n : ℕ => (n : ℚ)⟩).diffused.length = orig.length ∧
      (∀ j, 4 * k ≤ j →
        (((List.range k).map fun p => (p / w, p % w)).foldl (fsStep w h q 0)
            ⟨orig, orig.map fun n : ℕ => (n : ℚ)⟩).diffused.getD j 0 =
          ((orig.getD j 0 : ℕ) : ℚ)) ∧
      (∀ j, 4 * k ≤ j →
        (((List.range k).map fun p => (p / w, p % w)).foldl (fsStep w h q 0)
            ⟨orig, orig.map fun n : ℕ => (n : ℚ)⟩).data.getD j 0 = orig.getD j 0) ∧
      (∀ p, p < k → ∀ c, c < 4 →
        (((List.range k).map fun p => (p / w, p % w)).foldl (fsStep w h q 0)
            ⟨orig, orig.map fun n : ℕ => (n : ℚ)⟩).data.getD (4 * p + c) 0 =
          chunkTarget (fun r g b => q r g b) orig p c) := by
    intro k
    induction k with
    | zero =>
        intro _
        refine ⟨rfl, by simp, ?_, fun j _ => rfl,
          fun p hp => absurd hp (Nat.not_lt_zero p)⟩
        intro j _
        exact getD_map_cast orig j
    | succ k ih =>
        intro hk1
        have hk : k < h * w := by omega
        obtain ⟨ihd, ihdf, ihdiff, ihdata, ihdone⟩ := ih (by omega)
        set T := ((List.range k).map fun p => (p / w, p % w)).foldl (fsStep w h q 0)
          ⟨orig, orig.map fun n : ℕ => (n : ℚ)⟩ with hT
        rw [foldl_range_map_succ]
        have hidx : ((k / w) * w + k % w) * 4 = 4 * k := by
          have hdm : (k / w) * w + k % w = k := by
            rw [Nat.mul_comm]
            exact Nat.div_add_mod k w
          omega
        have hb : 4 * k + 3 < orig.length := by
          have h4 : 4 * (k + 1) ≤ 4 * (h * w) := Nat.mul_le_mul_left 4 hk1
          omega
        have hread0 : T.diffused.getD (4 * k) 0 = ((orig.getD (4 * k) 0 : ℕ) : ℚ) :=
          ihdiff _ (by omega)
        have hread1 : T.diffused.getD (4 * k + 1) 0 =
            ((orig.getD (4 * k + 1) 0 : ℕ) : ℚ) := ihdiff _ (by omega)
        have hread2 : T.diffused.getD (4 * k + 2) 0 =
            ((orig.getD (4 * k + 2) 0 : ℕ) : ℚ) := ihdiff _ (by omega)
        have hdata : (fsStep w h q 0 T (k / w, k % w)).data =
            ((T.data.set (4 * k)
                  (q ((orig.getD (4 * k) 0 : ℕ) : ℚ) ((orig.getD (4 * k + 1) 0 : ℕ) : ℚ)
                    ((orig.getD (4 * k + 2) 0 : ℕ) : ℚ)).1).set
                (4 * k + 1)
                  (q ((orig.getD (4 * k) 0 : ℕ) : ℚ) ((orig.getD (4 * k + 1) 0 : ℕ) : ℚ)
                    ((orig.getD (4 * k + 2) 0 : ℕ) : ℚ)).2.1).set
              (4 * k + 2)
                (q ((orig.getD (4 * k) 0 : ℕ) : ℚ) ((orig.getD (4 * k + 1) 0 : ℕ) : ℚ)
                  ((orig.getD (4 * k + 2) 0 : ℕ) : ℚ)).2.2 := by
          rw [fsStep_zero_data, hidx, hread0, hread1, hread2]
        have hdiff : (fsStep w h q 0 T (k / w, k % w)).diffused =
            ((T.diffused.set (4 * k)
                  ((q ((orig.getD (4 * k) 0 : ℕ) : ℚ) ((orig.getD (4 * k + 1) 0 : ℕ) : ℚ)
                    ((orig.getD (4 * k + 2) 0 : ℕ) : ℚ)).1 : ℚ)).set
                (4 * k + 1)
                  ((q ((orig.getD (4 * k) 0 : ℕ) : ℚ) ((orig.getD (4 * k + 1) 0 : ℕ) : ℚ)
                    ((orig.getD (4 * k + 2) 0 : ℕ) : ℚ)).2.1 : ℚ)).set
              (4 * k + 2)
                ((q ((orig.getD (4 * k) 0 : ℕ) : ℚ) ((orig.getD (4 * k + 1) 0 : ℕ) : ℚ)
                  ((orig.getD (4 * k + 2) 0 : ℕ) : ℚ)).2.2 : ℚ) := by
          rw [fsStep_zero_diffused, hidx, hread0, hread1, hread2]
        refine ⟨?_, ?_, ?_, ?_, ?_⟩
        · rw [hdata]
          simp only [List.length_set]
          exact ihd
        · rw [hdiff]
          simp only [List.length_set]
          exact ihdf
        · intro j hj
          rw [hdiff, getD_set_ne _ _ _ _ _ (by omega), getD_set_ne _ _ _ _ _ (by omega),
            getD_set_ne _ _ _ _ _ (by omega)]
          exact ihdiff j (by omega)
        · intro j hj
          rw [hdata, getD_set_ne _ _ _ _ _ (by omega), getD_set_ne _ _ _ _ _ (by omega),
            getD_set_ne _ _ _ _ _ (by omega)]
          exact ihdata j (by omega)
        · intro p hp c hc
          rcases Nat.lt_or_ge p k with hpk | hpk
          · have hlt : 4 * p + c < 4 * k := by omega
            rw [hdata, getD_set_ne _ _ _ _ _ (by omega), getD_set_ne _ _ _ _ _ (by omega),
              getD_set_ne _ _ _ _ _ (by omega)]
            exact ihdone p hpk c hc
          · have hpe : p = k := by omega
            subst hpe
            have hlen0 : 4 * p < T.data.length := by rw [ihd]; omega
            have hlen1 : 4 * p + 1 < (T.data.set (4 * p)
                (q ((orig.getD (4 * p) 0 : ℕ) : ℚ) ((orig.getD (4 * p + 1) 0 : ℕ) : ℚ)
                  ((orig.getD (4 * p + 2) 0 : ℕ) : ℚ)).1).length := by
              rw [List.length_set, ihd]; omega
            interval_cases c
            · rw [hdata]
              rw [getD_set_ne _ _ _ _ _ (by omega), getD_set_ne _ _ _ _ _ (by omega)]
              rw [show 4 * p + 0 = 4 * p from rfl, getD_set_eq _ _ _ _ hlen0]
              simp [chunkTarget]
            · rw [hdata]
              rw [getD_set_ne _ _ _ _ _ (by omega)]
              rw [getD_set_eq _ _ _ _ hlen1]
              simp [chunkTarget]
            · rw [hdata]
              rw [getD_set_eq]
              · simp [chunkTarget]
              · simp only [List.length_set]
                rw [ihd]
                omega
            · rw [hdata, getD_set_ne _ _ _ _ _ (by omega), getD_set_ne _ _ _ _ _ (by omega),
                getD_set_ne _ _ _ _ _ (by omega)]
              rw [ihdata (4 * p + 3) (by omega)]
              simp [chunkTarget]
  obtain ⟨hd, _, _, _, hdone⟩ := main (h * w) le_rfl
  apply list_eq_of_getD 0
  · rw [hd, chunk4Map_length]
  · intro j hj
    have hjo : j < orig.length := by rw [← hd]; exact hj
    have hj4 : j % 4 < 4 := Nat.mod_lt _ (by norm_num)
    have hp : j / 4 < h * w := by
      apply (Nat.div_lt_iff_lt_mul (by norm_num : 0 < 4)).mpr
      omega
    have hb4 : 4 * (j / 4) + 3 < orig.length := by
      have := Nat.div_add_mod j 4
      omega
    have hdecomp : 4 * (j / 4) + j % 4 = j := Nat.div_add_mod j 4
    rw [← hdecomp, hdone (j / 4) hp (j % 4) hj4,
      chunk4Map_getD _ (j / 4) orig (j % 4) hj4 hb4]

theorem fs_zero_eq (img : ImageData) (q : QuantizeFn)
    (hlen : img.data.length = img.width * img.height * 4) :
    floydSteinbergApply img 0 q = quantizeImageData img q := by
  obtain ⟨w, h, orig⟩ := img
  have hsi : max 0 (min 1 (0 : ℚ)) = 0 := by norm_num
  unfold floydSteinbergApply quantizeImageData
  rw [hsi]
  exact congrArg (ImageData.mk w h) (fs_zero_data w h q orig hlen)

/-- C1: for every input surface satisfying the RGBA buffer invariant and
every dithering configuration, the Floyd–Steinberg strategy at intensity 0
produces a buffer byte-identical to the None/direct-quantize path with the
same quantizer: at intensity 0 no error is diffused, so every pixel is
quantized from its original value exactly as `quantizeImageData` does. -/
theorem c1_floyd_steinberg_zero (img : ImageData) (cfg : DitherConfig)
    (hi : cfg.intensity = 0)
    (hlen : img.data.length = img.width * img.height * 4) :
    applyDithering img { cfg with algorithm := "floyd-steinberg" } =
      applyDithering img { cfg with algorithm := "none" } := by
  obtain ⟨alg, inten, pal, lv, md⟩ := cfg
  have hi2 : inten = 0 := hi
  subst hi2
  unfold applyDithering
  dsimp only
  rw [if_neg (by decide : ¬("floyd-steinberg" = "none"))]
  rw [if_pos (rfl : ("floyd-steinberg" : String) = "floyd-steinberg")]
  rw [if_pos (rfl : ("none" : String) = "none")]
  exact fs_zero_eq img (createQuantizer ⟨pal, lv, md⟩) hlen

/-- C1, witness on a concrete 1×1 surface and a concrete configuration. -/
theorem c1_floyd_steinberg_zero_witness :
    (DitherConfig.mk "x" 0 none 2 QuantizationMode.grayscale).intensity = 0 ∧
      (ImageData.mk 1 1 [10, 20, 30, 40]).data.length =
        (ImageData.mk 1 1 [10, 20, 30, 40]).width *
          (ImageData.mk 1 1 [10, 20, 30, 40]).height * 4 ∧
      applyDithering (ImageData.mk 1 1 [10, 20, 30, 40])
          { DitherConfig.mk "x" 0 none 2 QuantizationMode.grayscale with
              algorithm := "floyd-steinberg" } =
        applyDithering (ImageData.mk 1 1 [10, 20, 30, 40])
          { DitherConfig.mk "x" 0 none 2 QuantizationMode.grayscale with
              algorithm := "none" } :=
  ⟨rfl, by decide,
    c1_floyd_steinberg_zero (ImageData.mk 1 1 [10, 20, 30, 40])
      (DitherConfig.mk "x" 0 none 2 QuantizationMode.grayscale) rfl (by decide)⟩

theorem bayerStep_sets (w : ℕ) (si : ℚ) (q : QuantizeFn) (data : List ℕ)
    (y x : ℕ) :
    bayerStep w si q data (y, x) =
      ((data.set ((y * w + x) * 4) (bayerPixel w si q data y x).1).set
          ((y * w + x) * 4 + 1) (bayerPixel w si q data y x).2.1).set
        ((y * w + x) * 4 + 2) (bayerPixel w si q data y x).2.2 := by
  unfold bayerStep bayerPixel
  rfl

theorem bayerPixel_congr (w : ℕ) (si : ℚ) (q : QuantizeFn) (d1 d2 : List ℕ)
    (y x : ℕ)
    (h0 : d1.getD ((y * w + x) * 4) 0 = d2.getD ((y * w + x) * 4) 0)
    (h1 : d1.getD ((y * w + x) * 4 + 1) 0 = d2.getD ((y * w + x) * 4 + 1) 0)
    (h2 : d1.getD ((y * w + x) * 4 + 2) 0 = d2.getD ((y * w + x) * 4 + 2) 0) :
    bayerPixel w si q d1 y x = bayerPixel w si q d2 y x := by
  unfold bayerPixel
  dsimp only
  rw [h0, h1, h2]

theorem bayer_data (w h : ℕ) (si : ℚ) (q : QuantizeFn) (orig : List ℕ)
    (hlen : orig.length = w * h * 4) :
    ∀ k, k ≤ h * w →
      (((List.range k).map fun p => (p / w, p % w)).foldl (bayerStep w si q)
          orig).length = orig.length ∧
      (∀ j, 4 * k ≤ j →
        (((List.range k).map fun p => (p / w, p % w)).foldl (bayerStep w si q)
            orig).getD j 0 = orig.getD j 0) ∧
      (∀ p, p < k → ∀ c, c < 3 →
        (((List.range k).map fun p => (p / w, p % w)).foldl (bayerStep w si q)
            orig).getD (4 * p + c) 0 =
          rgbComp (bayerPixel w si q orig (p / w) (p % w)) c) := by
  intro k
  induction k with
  | zero =>
      exact fun _ => ⟨rfl, fun j _ => rfl, fun p hp => absurd hp (Nat.not_lt_zero p)⟩
  | succ k ih =>
      intro hk1
      have hk : k < h * w := by omega
      obtain ⟨ihl, ihrest, ihdone⟩ := ih (by omega)
      set T := ((List.range k).map fun p => (p / w, p % w)).foldl (bayerStep w si q)
        orig with hT
      rw [foldl_range_map_succ]
      have hidx : ((k / w) * w + k % w) * 4 = 4 * k := by
        have hdm : (k / w) * w + k % w = k := by
          rw [Nat.mul_comm]
          exact Nat.div_add_mod k w
        omega
      have hb : 4 * k + 3 < orig.length := by
        have h4 : 4 * (k + 1) ≤ 4 * (h * w) := Nat.mul_le_mul_left 4 hk1
        have hlen2 : orig.length = 4 * (h * w) := by rw [hlen]; ring
        omega
      have hpix : bayerPixel w si q T (k / w) (k % w) =
          bayerPixel w si q orig (k / w) (k % w) := by
        apply bayerPixel_congr
        · rw [hidx]
          exact ihrest _ (by omega)
        · rw [hidx]
          exact ihrest _ (by omega)
        · rw [hidx]
          exact ihrest _ (by omega)
      have hstep : bayerStep w si q T (k / w, k % w) =
          ((T.set (4 * k) (bayerPixel w si q orig (k / w) (k % w)).1).set
              (4 * k + 1) (bayerPixel w si q orig (k / w) (k % w)).2.1).set
            (4 * k + 2) (bayerPixel w si q orig (k / w) (k % w)).2.2 := by
        rw [bayerStep_sets, hidx, hpix]
      refine ⟨?_, ?_, ?_⟩
      · rw [hstep]
        simp only [List.length_set]
        exact ihl
      · intro j hj
        rw [hstep, getD_set_ne _ _ _ _ _ (by omega), getD_set_ne _ _ _ _ _ (by omega),
          getD_set_ne _ _ _ _ _ (by omega)]
        exact ihrest j (by omega)
      · intro p hp c hc
        rcases Nat.lt_or_ge p k with hpk | hpk
        · rw [hstep, getD_set_ne _ _ _ _ _ (by omega), getD_set_ne _ _ _ _ _ (by omega),
            getD_set_ne _ _ _ _ _ (by omega)]
          exact ihdone p hpk c hc
        · have hpe : p = k := by omega
          subst hpe
          have hlen0 : 4 * p < T.length := by rw [ihl]; omega
          have hlen1 : 4 * p + 1 <
              (T.set (4 * p) (bayerPixel w si q orig (p / w) (p % w)).1).length := by
            rw [List.length_set, ihl]
            omega
          interval_cases c
          · rw [hstep, getD_set_ne _ _ _ _ _ (by omega), getD_set_ne _ _ _ _ _ (by omega),
              show 4 * p + 0 = 4 * p from rfl, getD_set_eq _ _ _ _ hlen0]
            simp [rgbComp]
          · rw [hstep, getD_set_ne _ _ _ _ _ (by omega), getD_set_eq _ _ _ _ hlen1]
            simp [rgbComp]
          · rw [hstep, getD_set_eq]
            · simp [rgbComp]
            · simp only [List.length_set]
              rw [ihl]
              omega

/-- C6: for every pixel (x, y) of a surface satisfying the buffer invariant
and every intensity in [0, 1], the ordered Bayer strategy selects the matrix
cell at `(y mod 8, x mod 8)`, computes the offset
`((cell + 0.5)/64 − 0.5) · (intensity · 255)`, adds that same offset to all
three (clamped) colour channels of that pixel, and quantizes — the output
pixel depends only on that pixel's own input bytes, with no error carried
between pixels. -/
theorem c6_ordered_bayer_pixel (img : ImageData) (intensity : ℚ)
    (q : QuantizeFn) (x y : ℕ) (hx : x < img.width) (hy : y < img.height)
    (hlen : img.data.length = img.width * img.height * 4)
    (h0 : 0 ≤ intensity) (h1 : intensity ≤ 1) :
    ((orderedBayerApply img intensity q).data.getD ((y * img.width + x) * 4) 0,
      (orderedBayerApply img intensity q).data.getD ((y * img.width + x) * 4 + 1) 0,
      (orderedBayerApply img intensity q).data.getD ((y * img.width + x) * 4 + 2) 0) =
      q (clampQ ((img.data.getD ((y * img.width + x) * 4) 0 : ℚ) +
            (((BAYER_8X8.getD ((y % 8) * 8 + x % 8) 0 : ℚ) + 1 / 2) / 64 - 1 / 2) *
              (intensity * 255)))
        (clampQ ((img.data.getD ((y * img.width + x) * 4 + 1) 0 : ℚ) +
            (((BAYER_8X8.getD ((y % 8) * 8 + x % 8) 0 : ℚ) + 1 / 2) / 64 - 1 / 2) *
              (intensity * 255)))
        (clampQ ((img.data.getD ((y * img.width + x) * 4 + 2) 0 : ℚ) +
            (((BAYER_8X8.getD ((y % 8) * 8 + x % 8) 0 : ℚ) + 1 / 2) / 64 - 1 / 2) *
              (intensity * 255))) := by
  obtain ⟨w, h, orig⟩ := img
  dsimp only at hx hy hlen ⊢
  have hw : 0 < w := by omega
  have hsi : max 0 (min 1 intensity) = intensity := by
    rw [min_eq_right h1, max_eq_right h0]
  unfold orderedBayerApply
  dsimp only
  rw [hsi, loopPixels_eq]
  obtain ⟨_, _, hdone⟩ := bayer_data w h intensity q orig hlen (h * w) le_rfl
  have hp : y * w + x < h * w := by
    have h2 : y + 1 ≤ h := hy
    have h3 : (y + 1) * w ≤ h * w := Nat.mul_le_mul_right w h2
    have h4 : (y + 1) * w = y * w + w := by ring
    omega
  have hdy : (y * w + x) / w = y := by
    rw [Nat.add_comm, Nat.mul_comm, Nat.add_mul_div_left _ _ hw,
      Nat.div_eq_of_lt hx, Nat.zero_add]
  have hdx : (y * w + x) % w = x := by
    rw [Nat.add_comm, Nat.mul_comm, Nat.add_mul_mod_self_left, Nat.mod_eq_of_lt hx]
  have h0c := hdone (y * w + x) hp 0 (by norm_num)
  have h1c := hdone (y * w + x) hp 1 (by norm_num)
  have h2c := hdone (y * w + x) hp 2 (by norm_num)
  rw [hdy, hdx] at h0c h1c h2c
  rw [show 4 * (y * w + x) + 0 = (y * w + x) * 4 by ring] at h0c
  rw [show 4 * (y * w + x) + 1 = (y * w + x) * 4 + 1 by ring] at h1c
  rw [show 4 * (y * w + x) + 2 = (y * w + x) * 4 + 2 by ring] at h2c
  rw [h0c, h1c, h2c]
  rfl

/-- C6, witness at pixel (0, 0) of a concrete 1×1 surface with intensity 1/2. -/
theorem c6_ordered_bayer_pixel_witness :
    (0 : ℕ) < (ImageData.mk 1 1 [128, 64, 32, 255]).width ∧
      (0 : ℕ) < (ImageData.mk 1 1 [128, 64, 32, 255]).height ∧
      (ImageData.mk 1 1 [128, 64, 32, 255]).data.length =
        (ImageData.mk 1 1 [128, 64, 32, 255]).width *
          (ImageData.mk 1 1 [128, 64, 32, 255]).height * 4 ∧
      (0 : ℚ) ≤ 1 / 2 ∧ (1 / 2 : ℚ) ≤ 1 ∧
      ((orderedBayerApply (ImageData.mk 1 1 [128, 64, 32, 255]) (1 / 2)
            (createQuantizer ⟨none, 2, QuantizationMode.grayscale⟩)).data.getD
          ((0 * (ImageData.mk 1 1 [128, 64, 32, 255]).width + 0) * 4) 0,
        (orderedBayerApply (ImageData.mk 1 1 [128, 64, 32, 255]) (1 / 2)
            (createQuantizer ⟨none, 2, QuantizationMode.grayscale⟩)).data.getD
          ((0 * (ImageData.mk 1 1 [128, 64, 32, 255]).width + 0) * 4 + 1) 0,
        (orderedBayerApply (ImageData.mk 1 1 [128, 64, 32, 255]) (1 / 2)
            (createQuantizer ⟨none, 2, QuantizationMode.grayscale⟩)).data.getD
          ((0 * (ImageData.mk 1 1 [128, 64, 32, 255]).width + 0) * 4 + 2) 0) =
        createQuantizer ⟨none, 2, QuantizationMode.grayscale⟩
          (clampQ (((ImageData.mk 1 1 [128, 64, 32, 255]).data.getD
                ((0 * (ImageData.mk 1 1 [128, 64, 32, 255]).width + 0) * 4) 0 : ℚ) +
              (((BAYER_8X8.getD ((0 % 8) * 8 + 0 % 8) 0 : ℚ) + 1 / 2) / 64 - 1 / 2) *
                (1 / 2 * 255)))
          (clampQ (((ImageData.mk 1 1 [128, 64, 32, 255]).data.getD
                ((0 * (ImageData.mk 1 1 [128, 64, 32, 255]).width + 0) * 4 + 1) 0 : ℚ) +
              (((BAYER_8X8.getD ((0 % 8) * 8 + 0 % 8) 0 : ℚ) + 1 / 2) / 64 - 1 / 2) *
                (1 / 2 * 255)))
          (clampQ (((ImageData.mk 1 1 [128, 64, 32, 255]).data.getD
                ((0 * (ImageData.mk 1 1 [128, 64, 32, 255]).width + 0) * 4 + 2) 0 : ℚ) +
              (((BAYER_8X8.getD ((0 % 8) * 8 + 0 % 8) 0 : ℚ) + 1 / 2) / 64 - 1 / 2) *
                (1 / 2 * 255))) :=
  ⟨by decide, by decide, by decide, by norm_num, by norm_num,
    c6_ordered_bayer_pixel (ImageData.mk 1 1 [128, 64, 32, 255]) (1 / 2)
      (createQuantizer ⟨none, 2, QuantizationMode.grayscale⟩) 0 0
      (by decide) (by decide) (by decide) (by norm_num) (by norm_num)⟩
